import Mathlib

/-!
Verification of the Reading-Tracker activity analytics engine
(src/types/index.ts, src/utils/dateUtils.ts, src/utils/storage.ts,
src/components/BadgeSystem.tsx).

Shallow-embedding conventions: calendar dates in YYYY-MM-DD string form are
modelled as integers counting days; on well-formed date strings the
lexicographic string order coincides with the numeric order of day numbers,
so under this model formatDate and parseISO are identities, date-fns subDays
subtracts, and differenceInDays is integer subtraction.  JavaScript numbers
holding minute totals are modelled as Int (the code never guards against
negative durations), collection sizes as Nat.
-/

/-- TimeSlot union type from src/types/index.ts. -/
inductive TimeSlot
  | morning
  | afternoon
  | evening
  deriving DecidableEq, Repr

/-- ReadingSession record from src/types/index.ts; date is the day number of
the YYYY-MM-DD string, notes is the optional field. -/
structure ReadingSession where
  id : String
  date : Int
  timeSlot : TimeSlot
  startTime : String
  endTime : String
  duration : Int
  content : String
  notes : Option String
  createdAt : Int
  deriving DecidableEq, Repr

/-- HeatmapData record from src/types/index.ts; the level field is typed
0..5 in TypeScript, modelled as Nat. -/
structure HeatmapData where
  date : Int
  count : Nat
  level : Nat
  deriving DecidableEq, Repr, Inhabited

/-- UserStats record from src/types/index.ts. -/
structure UserStats where
  totalSessions : Nat
  totalMinutes : Int
  currentStreak : Nat
  longestStreak : Nat
  averageSessionDuration : Int
  sessionsThisWeek : Nat
  sessionsThisMonth : Nat
  minutesThisWeek : Int
  minutesThisMonth : Int
  deriving DecidableEq, Repr

/-- Badge type union from src/types/index.ts. -/
inductive BadgeType
  | streak
  | time
  | content
  deriving DecidableEq, Repr

/-- Badge record from src/types/index.ts: a catalog definition merged with
unlock state; unlockedAt is the optional epoch-millisecond field. -/
structure Badge where
  id : String
  name : String
  description : String
  icon : String
  type : BadgeType
  requirement : Int
  unlocked : Bool
  unlockedAt : Option Int
  deriving DecidableEq, Repr

/-- Week and month boundaries that calculateStats derives from "now" via
date-fns (startOfWeek weekStartsOn 1, endOfWeek, startOfMonth, endOfMonth),
threaded explicitly so the embedding is deterministic. -/
structure DateContext where
  today : Int
  weekStart : Int
  weekEnd : Int
  monthStart : Int
  monthEnd : Int
  deriving DecidableEq, Repr

/-- Per-date session count: the sessionsByDate reduce of generateHeatmapData
(src/utils/dateUtils.ts lines 189-194) counts the sessions carrying each
date key. -/
def sessionsOnDate (sessions : List ReadingSession) (d : Int) : Nat :=
  (sessions.filter (fun s => s.date = d)).length

/-- Quantization ladder of generateHeatmapData (dateUtils.ts lines 202-206):
level starts at 0, count at least 3 gives 5, else at least 2 gives 4, else at
least 1 gives 3, else the count-is-zero branch leaves 0. -/
def levelFor (count : Nat) : Nat :=
  if count ≥ 3 then 5
  else if count ≥ 2 then 4
  else if count ≥ 1 then 3
  else 0

/-- generateHeatmapData (dateUtils.ts lines 184-216): the loop runs i = 364
down to 0 pushing the day today - i, so the j-th entry (0-based) describes
day today - 364 + j. -/
def generateHeatmapData (sessions : List ReadingSession) (today : Int) : List HeatmapData :=
  (List.range 365).map (fun (j : Nat) =>
    { date := today - 364 + (j : Int)
      count := sessionsOnDate sessions (today - 364 + (j : Int))
      level := levelFor (sessionsOnDate sessions (today - 364 + (j : Int))) })

/-- uniqueDates of calculateStreaks (dateUtils.ts line 277): spread of a Set
then sort; on same-length date strings the JavaScript lexicographic sort is
the numeric sort of day numbers. -/
def uniqueDates (sessions : List ReadingSession) : List Int :=
  List.insertionSort (· ≤ ·) ((sessions.map (fun s => s.date)).dedup)

/-- Backward walk of the current-streak while loop (dateUtils.ts lines
291-299).  Each successful membership test consumes a distinct date and the
probe strictly decreases, so the loop performs at most as many increments as
there are distinct dates; running it with fuel equal to that bound plus one
reproduces the loop exactly. -/
def streakWalk (dates : List Int) : Int → Nat → Nat
  | _, 0 => 0
  | checkDate, fuel + 1 =>
    if checkDate ∈ dates then streakWalk dates (checkDate - 1) fuel + 1
    else 0

/-- Longest-streak for loop of calculateStreaks (dateUtils.ts lines 303-318)
over the dates after the first, carrying the previous date, tempStreak and
longestStreak; the final max is the line after the loop (line 319). -/
def longestLoop : List Int → Int → Nat → Nat → Nat
  | [], _, temp, longest => max longest temp
  | d :: rest, prev, temp, longest =>
    if d - prev = 1 then longestLoop rest d (temp + 1) longest
    else longestLoop rest d 1 (max longest temp)

/-- Longest streak of a sorted distinct date list as the code computes it:
index 0 sets tempStreak to 1, the loop handles the rest; an empty list never
enters the loop and Math.max(0, 0) leaves 0. -/
def longestStreakOf : List Int → Nat
  | [] => 0
  | d :: rest => longestLoop rest d 1 0

/-- calculateStreaks (dateUtils.ts lines 273-322), with "now" passed as the
integer day today. -/
def calculateStreaks (sessions : List ReadingSession) (today : Int) : Nat × Nat :=
  if sessions.length = 0 then (0, 0)
  else
    let dates := uniqueDates sessions
    let currentStreak :=
      if today ∈ dates ∨ (today - 1) ∈ dates then streakWalk dates today (dates.length + 1)
      else 0
    (currentStreak, longestStreakOf dates)

/-- Math.round applied to the exact rational a / b with b positive:
JavaScript rounds half toward positive infinity, i.e. takes the floor of
a / b + 1/2, which on integers is the floor division (2a + b) / (2b). -/
def jsRound (a : Int) (b : Nat) : Int :=
  (2 * a + (b : Int)) / (2 * (b : Int))

/-- calculateStats (dateUtils.ts lines 219-270); the date-fns week and month
boundaries computed from "now" are supplied through the DateContext, and
isWithinInterval is an inclusive range test. -/
def calculateStats (sessions : List ReadingSession) (ctx : DateContext) : UserStats :=
  let totalSessions := sessions.length
  let totalMinutes := (sessions.map (fun s => s.duration)).sum
  let streaks := calculateStreaks sessions ctx.today
  { totalSessions := totalSessions
    totalMinutes := totalMinutes
    currentStreak := streaks.1
    longestStreak := streaks.2
    averageSessionDuration := if totalSessions > 0 then jsRound totalMinutes totalSessions else 0
    sessionsThisWeek :=
      (sessions.filter (fun s => decide (ctx.weekStart ≤ s.date ∧ s.date ≤ ctx.weekEnd))).length
    sessionsThisMonth :=
      (sessions.filter (fun s => decide (ctx.monthStart ≤ s.date ∧ s.date ≤ ctx.monthEnd))).length
    minutesThisWeek :=
      ((sessions.filter (fun s => decide (ctx.weekStart ≤ s.date ∧ s.date ≤ ctx.weekEnd))).map
        (fun s => s.duration)).sum
    minutesThisMonth :=
      ((sessions.filter (fun s => decide (ctx.monthStart ≤ s.date ∧ s.date ≤ ctx.monthEnd))).map
        (fun s => s.duration)).sum }

/-- Stored collections behind the localStorage keys reading-tracker-sessions
and reading-tracker-badges, in their typed view. -/
structure Storage where
  sessions : List ReadingSession
  badges : List Badge
  deriving DecidableEq, Repr

/-- deleteSession (src/utils/storage.ts lines 45-49): load the sessions,
filter out those whose id equals the argument, save the filtered list back. -/
def deleteSession (sessionId : String) (st : Storage) : Storage :=
  { st with sessions := st.sessions.filter (fun s => decide (s.id ≠ sessionId)) }

/-- JSON values as produced by JSON.parse. -/
inductive JsonValue
  | null
  | bool (b : Bool)
  | num (n : Int)
  | str (s : String)
  | arr (elems : List JsonValue)
  | obj (fields : List (String × JsonValue))

/-- Raw JSON view of the two stored collections: importData writes whatever
arrays the parsed document holds without validating element shape. -/
structure StoreJson where
  sessions : List JsonValue
  badges : List JsonValue

/-- Property access data.key on a parsed JSON value: an object yields the
value stored under the key (JSON.parse keeps the last duplicate), any other
non-null value yields undefined, modelled none; access on null throws and is
handled by the caller. -/
def getField : JsonValue → String → Option JsonValue
  | JsonValue.obj fields, key =>
    ((fields.filter (fun p => p.1 = key)).getLast?).map (fun p => p.2)
  | _, _ => none

/-- Test for the JSON null value. -/
def JsonValue.isNull : JsonValue → Bool
  | JsonValue.null => true
  | _ => false

/-- importData (src/utils/storage.ts lines 86-100).  The first argument
models the outcome of JSON.parse on the input string: none when parsing
throws (the catch block returns false), some v otherwise; property access on
a parsed null also throws into the same catch.  Each collection is written
independently when its key holds an array, and the function returns true
whenever no exception occurred. -/
def importData (parsed : Option JsonValue) (st : StoreJson) : StoreJson × Bool :=
  match parsed with
  | none => (st, false)
  | some data =>
    if data.isNull then (st, false)
    else
      let st1 := match getField data "sessions" with
        | some (JsonValue.arr xs) => { st with sessions := xs }
        | _ => st
      let st2 := match getField data "badges" with
        | some (JsonValue.arr bs) => { st1 with badges := bs }
        | _ => st1
      (st2, true)

/-- Catalog entry shape of BADGE_DEFINITIONS (BadgeSystem.tsx lines 14-32):
a Badge without the unlocked and unlockedAt fields. -/
structure BadgeDef where
  id : String
  name : String
  description : String
  icon : String
  type : BadgeType
  requirement : Int
  deriving DecidableEq, Repr

/-- Eligibility switch of the badges useMemo (BadgeSystem.tsx lines
178-188): streak compares stats.currentStreak, time compares
stats.minutesThisWeek, content compares stats.totalSessions, each against
the requirement. -/
def isUnlockedNow (stats : UserStats) (d : BadgeDef) : Bool :=
  match d.type with
  | BadgeType.streak => decide (d.requirement ≤ (stats.currentStreak : Int))
  | BadgeType.time => decide (d.requirement ≤ stats.minutesThisWeek)
  | BadgeType.content => decide (d.requirement ≤ (stats.totalSessions : Int))

/-- badgeMap.get of the badges useMemo (BadgeSystem.tsx lines 171-174): a
Map built from (id, badge) pairs keeps the last entry for a duplicated key. -/
def lookupBadge (prev : List Badge) (id : String) : Option Badge :=
  (prev.filter (fun b => b.id = id)).getLast?

/-- Per-definition body of the badges useMemo map callback (BadgeSystem.tsx
lines 173-211): the badge returned for the definition, paired with the flag
telling whether it was newly unlocked and pushed to newBadges. -/
def evalBadgeDef (stats : UserStats) (prev : List Badge) (now : Int) (d : BadgeDef) :
    Badge × Bool :=
  let existing := lookupBadge prev d.id
  let isUnlocked := isUnlockedNow stats d
  if isUnlocked && (match existing with | none => true | some e => !e.unlocked) then
    ({ id := d.id, name := d.name, description := d.description, icon := d.icon,
       type := d.type, requirement := d.requirement,
       unlocked := true, unlockedAt := some now }, true)
  else
    match existing with
    | some e => (e, false)
    | none =>
      ({ id := d.id, name := d.name, description := d.description, icon := d.icon,
         type := d.type, requirement := d.requirement,
         unlocked := isUnlocked,
         unlockedAt := if isUnlocked then some now else none }, false)

/-- Accumulation of the newBadges state through the setNewBadges updaters
(BadgeSystem.tsx lines 197-202): append the newly unlocked badge unless one
with the same id is already present. -/
def collectNew : List (Badge × Bool) → List Badge → List Badge
  | [], acc => acc
  | (b, isNew) :: rest, acc =>
    if isNew && acc.all (fun x => decide (x.id ≠ b.id)) then collectNew rest (acc ++ [b])
    else collectNew rest acc

/-- Badge evaluation of the badges useMemo (BadgeSystem.tsx lines 169-216)
as the pure function the spec calls evaluateBadges: the updated badge list
in catalog order, plus the badges newly transitioned to unlocked. -/
def evaluateBadges (stats : UserStats) (catalog : List BadgeDef) (prev : List Badge)
    (now : Int) : List Badge × List Badge :=
  let results := catalog.map (evalBadgeDef stats prev now)
  (results.map (fun r => r.1), collectNew results [])

/-- BADGE_DEFINITIONS catalog (BadgeSystem.tsx lines 14-32). -/
def BADGE_DEFINITIONS : List BadgeDef :=
  [ { id := "streak-3", name := "Getting Started", description := "3-day reading streak",
      icon := "flame", type := BadgeType.streak, requirement := 3 },
    { id := "streak-7", name := "Week Warrior", description := "7-day reading streak",
      icon := "flame", type := BadgeType.streak, requirement := 7 },
    { id := "streak-30", name := "Monthly Master", description := "30-day reading streak",
      icon := "flame", type := BadgeType.streak, requirement := 30 },
    { id := "streak-100", name := "Century Club", description := "100-day reading streak",
      icon := "trophy", type := BadgeType.streak, requirement := 100 },
    { id := "time-300", name := "Dedicated Reader", description := "5 hours in a week",
      icon := "clock", type := BadgeType.time, requirement := 300 },
    { id := "time-600", name := "Bookworm", description := "10 hours in a week",
      icon := "clock", type := BadgeType.time, requirement := 600 },
    { id := "time-900", name := "Reading Machine", description := "15 hours in a week",
      icon := "star", type := BadgeType.time, requirement := 900 },
    { id := "time-1200", name := "Literary Legend", description := "20 hours in a week",
      icon := "trophy", type := BadgeType.time, requirement := 1200 },
    { id := "sessions-10", name := "First Steps", description := "10 reading sessions",
      icon := "book-open", type := BadgeType.content, requirement := 10 },
    { id := "sessions-50", name := "Consistent Reader", description := "50 reading sessions",
      icon := "book-open", type := BadgeType.content, requirement := 50 },
    { id := "sessions-100", name := "Century Reader", description := "100 reading sessions",
      icon := "award", type := BadgeType.content, requirement := 100 },
    { id := "sessions-250", name := "Reading Expert", description := "250 reading sessions",
      icon := "trophy", type := BadgeType.content, requirement := 250 } ]

/-- Specification-side quantization map, worded as the spec gives it:
count 0 to level 0, count 1 to level 3, count 2 to level 4, count at least 3
to level 5. -/
def specLevel (count : Nat) : Nat :=
  if count = 0 then 0 else if count = 1 then 3 else if count = 2 then 4 else 5

/-- Proposition that the k consecutive calendar days d, d+1, ..., d+k-1 all
occur in the date list: a k-day run of session dates. -/
def ConsecRun (dates : List Int) (d : Int) (k : Nat) : Prop :=
  ∀ i : Nat, i < k → (d + (i : Int)) ∈ dates

/-- Boolean test for ConsecRun. -/
def hasRun (dates : List Int) (d : Int) (k : Nat) : Bool :=
  (List.range k).all (fun i => decide ((d + (i : Int)) ∈ dates))

/-- Specification-side longest streak: the greatest k such that some k-day
run of consecutive dates lies inside the list (a distinct-date list can host
a run of at most its length, so searching k up to that bound is exhaustive). -/
def maxRunLen (dates : List Int) : Nat :=
  ((List.range (dates.length + 1)).filter
    (fun k => dates.any (fun d => hasRun dates d k))).foldr max 0

/-- Specification-side rounding: round(x) as the floor of x + 1/2 on exact
rationals, which is how Math.round behaves on halves. -/
def specRound (q : ℚ) : Int := ⌊q + 1 / 2⌋

/-- UserStats with every field zero. -/
def zeroStats : UserStats :=
  { totalSessions := 0, totalMinutes := 0, currentStreak := 0, longestStreak := 0
    averageSessionDuration := 0, sessionsThisWeek := 0, sessionsThisMonth := 0
    minutesThisWeek := 0, minutesThisMonth := 0 }

/-- Example session used by concrete instances: only its id, date and
duration matter to the analytics engine. -/
def mkSession (i : String) (d : Int) (dur : Int) : ReadingSession :=
  { id := i, date := d, timeSlot := TimeSlot.morning, startTime := "08:00",
    endTime := "08:30", duration := dur, content := "book", notes := none, createdAt := 0 }

/-- Code quantization agrees with the spec-side threshold table. -/
theorem levelFor_eq_specLevel (n : Nat) : levelFor n = specLevel n := by
  unfold levelFor specLevel
  split_ifs <;> omega

/-- Entries of the generated heatmap, by position. -/
theorem generateHeatmapData_getD (sessions : List ReadingSession) (today : Int)
    (i : Nat) (hi : i < 365) :
    (generateHeatmapData sessions today).getD i default =
      { date := today - 364 + (i : Int)
        count := sessionsOnDate sessions (today - 364 + (i : Int))
        level := levelFor (sessionsOnDate sessions (today - 364 + (i : Int))) } := by
  unfold generateHeatmapData
  rw [List.getD_eq_getElem?_getD, List.getElem?_map, List.getElem?_range hi]
  rfl

/-- Code quantization never yields the reserved levels 1 and 2. -/
theorem levelFor_avoids_levels (n : Nat) : levelFor n ≠ 1 ∧ levelFor n ≠ 2 := by
  unfold levelFor
  split_ifs <;> omega

/-- C4 (heatmap quantization): every entry of the generated heatmap carries
the level obtained from its count by the fixed thresholds count 0 to 0,
count 1 to 3, count 2 to 4, count at least 3 to 5, and levels 1 and 2 are
never produced. -/
theorem c4_heatmap_quantization (sessions : List ReadingSession) (today : Int)
    (e : HeatmapData) (he : e ∈ generateHeatmapData sessions today) :
    e.level = specLevel e.count ∧ e.level ≠ 1 ∧ e.level ≠ 2 := by
  obtain ⟨j, _, rfl⟩ := List.mem_map.mp he
  exact ⟨levelFor_eq_specLevel _, (levelFor_avoids_levels _).1, (levelFor_avoids_levels _).2⟩

/-- Witness for C4 at a concrete entry of the window of an empty session
collection. -/
theorem c4_heatmap_quantization_witness :
    ((⟨-364, 0, 0⟩ : HeatmapData).level = specLevel (⟨-364, 0, 0⟩ : HeatmapData).count ∧
      (⟨-364, 0, 0⟩ : HeatmapData).level ≠ 1 ∧ (⟨-364, 0, 0⟩ : HeatmapData).level ≠ 2) :=
  c4_heatmap_quantization [] 0 ⟨-364, 0, 0⟩
    (List.mem_map.mpr ⟨0, List.mem_range.mpr (by decide), by decide⟩)

/-- C5 (heatmap window shape): the heatmap has exactly 365 entries, entry
dates are strictly consecutive ascending calendar days, and the final entry
is the reference day. -/
theorem c5_heatmap_window (sessions : List ReadingSession) (today : Int) :
    (generateHeatmapData sessions today).length = 365 ∧
    (∀ i : Nat, i + 1 < 365 →
      ((generateHeatmapData sessions today).getD (i + 1) default).date =
        ((generateHeatmapData sessions today).getD i default).date + 1) ∧
    ((generateHeatmapData sessions today).getD 364 default).date = today := by
  refine ⟨by simp [generateHeatmapData], ?_, ?_⟩
  · intro i hi
    rw [generateHeatmapData_getD sessions today (i + 1) hi,
      generateHeatmapData_getD sessions today i (by omega)]
    push_cast
    ring
  · rw [generateHeatmapData_getD sessions today 364 (by omega)]
    norm_num

/-- Witness for C5 at a concrete collection and reference day. -/
theorem c5_heatmap_window_witness :
    (generateHeatmapData [] 0).length = 365 ∧
    ((generateHeatmapData [] 0).getD 1 default).date =
      ((generateHeatmapData [] 0).getD 0 default).date + 1 ∧
    ((generateHeatmapData [] 0).getD 364 default).date = 0 :=
  ⟨(c5_heatmap_window [] 0).1, (c5_heatmap_window [] 0).2.1 0 (by omega),
    (c5_heatmap_window [] 0).2.2⟩

/-- C10 (delete frame property): deleteSession keeps exactly the sessions
whose id differs from the argument, in their original relative order and
multiplicity, removes every session carrying the argument id, leaves the
collection untouched when no session carries the id, and never touches the
badges collection. -/
theorem c10_delete_session_frame (sessionId : String) (st : Storage) :
    (deleteSession sessionId st).sessions.Sublist st.sessions ∧
    (∀ s ∈ (deleteSession sessionId st).sessions, s.id ≠ sessionId) ∧
    (∀ s : ReadingSession,
      (deleteSession sessionId st).sessions.count s =
        if s.id = sessionId then 0 else st.sessions.count s) ∧
    ((∀ s ∈ st.sessions, s.id ≠ sessionId) → deleteSession sessionId st = st) ∧
    (deleteSession sessionId st).badges = st.badges := by
  refine ⟨List.filter_sublist _, ?_, ?_, ?_, rfl⟩
  · intro s hs
    exact of_decide_eq_true (List.mem_filter.mp hs).2
  · intro s
    by_cases h : s.id = sessionId
    · rw [if_pos h, List.count_eq_zero]
      intro hs
      exact of_decide_eq_true (List.mem_filter.mp hs).2 h
    · rw [if_neg h]
      exact List.count_filter (decide_eq_true h)
  · intro hall
    have : st.sessions.filter (fun s => decide (s.id ≠ sessionId)) = st.sessions :=
      List.filter_eq_self.mpr (fun s hs => decide_eq_true (hall s hs))
    unfold deleteSession
    rw [this]

/-- Witness for C10 at a concrete store and an id no session carries. -/
theorem c10_delete_session_frame_witness :
    ((deleteSession "zz" ⟨[mkSession "a" 0 30], []⟩).sessions.Sublist [mkSession "a" 0 30] ∧
      (mkSession "a" 0 30).id ≠ "zz" ∧
      deleteSession "zz" ⟨[mkSession "a" 0 30], []⟩ = ⟨[mkSession "a" 0 30], []⟩) :=
  ⟨(c10_delete_session_frame "zz" ⟨[mkSession "a" 0 30], []⟩).1,
    (c10_delete_session_frame "zz" ⟨[mkSession "a" 0 30], []⟩).2.1 (mkSession "a" 0 30)
      (by decide),
    (c10_delete_session_frame "zz" ⟨[mkSession "a" 0 30], []⟩).2.2.2.1
      (by intro s hs; rw [List.mem_singleton.mp hs]; decide)⟩

/-- C1 (current streak grace period, code evaluation): with sessions only on
days D-1 and D-2 and none on today D, calculateStreaks returns currentStreak
0, not the 2 the grace-period claim requires; the walk that starts at today
breaks immediately, so the today-or-yesterday guard on line 287 of
dateUtils.ts never contributes.  With a session on D the same history counts
3, and a lone session three days back counts 0. -/
theorem c1_grace_period_code_eval :
    calculateStreaks [mkSession "a" (-1) 30, mkSession "b" (-2) 30] 0 = (0, 2) ∧
    calculateStreaks [mkSession "a" 0 30, mkSession "b" (-1) 30, mkSession "c" (-2) 30] 0
      = (3, 3) ∧
    calculateStreaks [mkSession "a" (-3) 30] 0 = (0, 1) := by
  refine ⟨?_, ?_, ?_⟩ <;> decide

/-- jsRound computes Math.round of the exact rational quotient. -/
theorem jsRound_eq_specRound (a : Int) (b : Nat) (hb : 0 < b) :
    jsRound a b = specRound ((a : ℚ) / (b : ℚ)) := by
  unfold jsRound specRound
  have hbq : ((b : ℚ)) ≠ 0 := by positivity
  have h2 : ((a : ℚ)) / (b : ℚ) + 1 / 2 = ((2 * a + (b : Int) : Int) : ℚ) / ((2 * b : Nat) : ℚ) := by
    push_cast
    field_simp
    ring
  rw [h2, Rat.floor_intCast_div_natCast]
  push_cast
  ring_nf

/-- C8 (empty-input statistics): calculateStats on the empty collection is
the all-zero record, and in general averageSessionDuration is the rounded
quotient of totalMinutes by totalSessions, 0 when there are no sessions. -/
theorem c8_empty_stats (ctx : DateContext) (sessions : List ReadingSession) :
    calculateStats [] ctx = zeroStats ∧
    (calculateStats sessions ctx).averageSessionDuration =
      (if sessions.length = 0 then 0
       else specRound ((((sessions.map (fun s => s.duration)).sum : Int) : ℚ) /
         ((sessions.length : Nat) : ℚ))) := by
  constructor
  · rfl
  · by_cases h : sessions.length = 0
    · rw [if_pos h]
      show (if sessions.length > 0 then _ else 0) = 0
      rw [if_neg (by omega)]
    · have hpos : 0 < sessions.length := Nat.pos_of_ne_zero h
      rw [if_neg h]
      show (if sessions.length > 0 then jsRound ((sessions.map (fun s => s.duration)).sum)
        sessions.length else 0) = _
      rw [if_pos hpos]
      exact jsRound_eq_specRound _ _ hpos

/-- Evaluation of importData on a successfully parsed non-null document:
each collection is replaced exactly when its key holds an array, and the
result is reported as success. -/
theorem importData_eval (data : JsonValue) (st : StoreJson) (hne : data.isNull = false) :
    importData (some data) st =
      ({ sessions := match getField data "sessions" with
            | some (JsonValue.arr xs) => xs
            | _ => st.sessions
         badges := match getField data "badges" with
            | some (JsonValue.arr bs) => bs
            | _ => st.badges }, true) := by
  simp only [importData, hne, Bool.false_eq_true, if_false]
  split <;> split <;> rfl

/-- Store contents used by the import instances. -/
def importStore0 : StoreJson :=
  { sessions := [JsonValue.str "keepS"], badges := [JsonValue.str "keepB"] }

/-- Parsed import document with a sessions array but no badges key. -/
def importDoc0 : JsonValue :=
  JsonValue.obj [("sessions", JsonValue.arr [JsonValue.num 7])]

/-- Non-null values are not the null value. -/
theorem isNull_false_ne_null (data : JsonValue) (h : data.isNull = false) :
    data ≠ JsonValue.null := by
  intro hd
  subst hd
  exact Bool.noConfusion h

/-- C2 counterexample: a parsed document holding a sessions array but no
badges key is not rejected: importData overwrites the stored sessions,
leaves the stored badges, and reports success, refuting the all-or-nothing
claim. -/
theorem c2_import_counterexample :
    getField importDoc0 "badges" = none ∧
    (importData (some importDoc0) importStore0).2 = true ∧
    (importData (some importDoc0) importStore0).1.sessions = [JsonValue.num 7] ∧
    (importData (some importDoc0) importStore0).1.sessions ≠ importStore0.sessions ∧
    (importData (some importDoc0) importStore0).1.badges = importStore0.badges := by
  refine ⟨rfl, rfl, rfl, ?_, rfl⟩
  intro h
  have h2 : JsonValue.num 7 = JsonValue.str "keepS" := by injection h
  exact JsonValue.noConfusion h2

/-- C2 amended: importData reports failure exactly when JSON parsing fails
(a parsed null counts as failure because its property access throws into
the same catch), and on failure writes nothing; on any successfully parsed
non-null document it reports success whether or not the keys exist, and
writes the sessions and badges collections independently of each other:
each collection is replaced exactly when its key holds an array and is kept
unchanged otherwise, so a document carrying only one array-typed key
produces a partial write. -/
theorem c2_import_amended (parsed : Option JsonValue) (st : StoreJson) :
    ((importData parsed st).2 = false ↔
      parsed = none ∨ parsed = some JsonValue.null) ∧
    ((importData parsed st).2 = false → (importData parsed st).1 = st) ∧
    (∀ data : JsonValue, parsed = some data → data.isNull = false →
      ((∀ xs, getField data "sessions" ≠ some (JsonValue.arr xs)) →
        (importData parsed st).1.sessions = st.sessions) ∧
      (∀ xs, getField data "sessions" = some (JsonValue.arr xs) →
        (importData parsed st).1.sessions = xs) ∧
      ((∀ bs, getField data "badges" ≠ some (JsonValue.arr bs)) →
        (importData parsed st).1.badges = st.badges) ∧
      (∀ bs, getField data "badges" = some (JsonValue.arr bs) →
        (importData parsed st).1.badges = bs)) := by
  rcases parsed with _ | data
  · refine ⟨by simp [importData], fun _ => rfl, ?_⟩
    intro d hd
    exact absurd hd (by simp)
  · by_cases hn : data.isNull = true
    · have hdn : data = JsonValue.null := by
        cases data <;> simp [JsonValue.isNull] at hn ⊢
      subst hdn
      refine ⟨by simp [importData, JsonValue.isNull], fun _ => rfl, ?_⟩
      intro d hd hdn
      obtain rfl : d = JsonValue.null := by
        injection hd with h
        exact h.symm
      exact absurd hdn (by simp [JsonValue.isNull])
    · have hn' : data.isNull = false := Bool.eq_false_iff.mpr hn
      refine ⟨?_, ?_, ?_⟩
      · simp [importData_eval data st hn', isNull_false_ne_null data hn']
      · simp [importData_eval data st hn']
      · intro d hd hdn
        obtain rfl : d = data := by
          injection hd with h
          exact h.symm
        refine ⟨?_, ?_, ?_, ?_⟩
        · intro hno
          rw [importData_eval _ st hn']
          rcases hg : getField d "sessions" with _ | v
          · rfl
          · cases v with
            | arr xs => exact absurd hg (hno xs)
            | null => rfl
            | bool b => rfl
            | num n => rfl
            | str s => rfl
            | obj f => rfl
        · intro xs hg
          rw [importData_eval _ st hn', hg]
        · intro hno
          rw [importData_eval _ st hn']
          rcases hg : getField d "badges" with _ | v
          · rfl
          · cases v with
            | arr bs => exact absurd hg (hno bs)
            | null => rfl
            | bool b => rfl
            | num n => rfl
            | str s => rfl
            | obj f => rfl
        · intro bs hg
          rw [importData_eval _ st hn', hg]

/-- Witness for the amended C2 at concrete inputs: a failed parse writes
nothing, and the one-key document updates sessions while keeping badges. -/
theorem c2_import_amended_witness :
    (importData none importStore0).1 = importStore0 ∧
    (importData (some importDoc0) importStore0).1.sessions = [JsonValue.num 7] ∧
    (importData (some importDoc0) importStore0).1.badges = importStore0.badges :=
  ⟨(c2_import_amended none importStore0).2.1 rfl,
    ((c2_import_amended (some importDoc0) importStore0).2.2 importDoc0 rfl rfl).2.1
      [JsonValue.num 7] rfl,
    ((c2_import_amended (some importDoc0) importStore0).2.2 importDoc0 rfl rfl).2.2.1
      (fun _ h => Option.noConfusion h)⟩

/-- Cons step of the per-date session count. -/
theorem sessionsOnDate_cons (s : ReadingSession) (rest : List ReadingSession) (d : Int) :
    sessionsOnDate (s :: rest) d = (if s.date = d then 1 else 0) + sessionsOnDate rest d := by
  unfold sessionsOnDate
  rw [List.filter_cons]
  by_cases h : s.date = d
  · rw [if_pos (decide_eq_true h), if_pos h, List.length_cons]
    omega
  · rw [if_neg (by simp [h]), if_neg h]
    omega

/-- A point lands in an enumerated window of consecutive days exactly once. -/
theorem sum_indicator_range (n : Nat) (base x : Int) :
    ((List.range n).map (fun (j : Nat) => if x = base + (j : Int) then 1 else 0)).sum
      = if base ≤ x ∧ x < base + (n : Int) then 1 else 0 := by
  induction n with
  | zero =>
    have hno : ¬(base ≤ x ∧ x < base + ((0 : Nat) : Int)) := by
      push_cast
      omega
    rw [if_neg hno]
    rfl
  | succ n ih =>
    rw [List.range_succ, List.map_append, List.sum_append, ih]
    simp only [List.map_cons, List.map_nil, List.sum_cons, List.sum_nil]
    split_ifs <;> push_cast at * <;> omega

/-- Sum of a pointwise addition splits. -/
theorem sum_map_add_nat {α : Type} (l : List α) (f g : α → Nat) :
    (l.map (fun x => f x + g x)).sum = (l.map f).sum + (l.map g).sum := by
  induction l with
  | nil => rfl
  | cons a t ih =>
    simp only [List.map_cons, List.sum_cons, ih]
    omega

/-- Summing the per-day counts over an enumerated day window counts the
sessions whose date falls in the window. -/
theorem range_count_sum (base : Int) (n : Nat) (sessions : List ReadingSession) :
    ((List.range n).map (fun (j : Nat) => sessionsOnDate sessions (base + (j : Int)))).sum =
      (sessions.filter (fun s => decide (base ≤ s.date ∧ s.date < base + (n : Int)))).length := by
  induction sessions with
  | nil =>
    rw [List.filter_nil]
    refine List.sum_eq_zero ?_
    intro x hx
    obtain ⟨j, _, rfl⟩ := List.mem_map.mp hx
    rfl
  | cons s rest ih =>
    simp only [sessionsOnDate_cons]
    rw [sum_map_add_nat, ih, sum_indicator_range n base s.date, List.filter_cons]
    by_cases h : base ≤ s.date ∧ s.date < base + (n : Int)
    · rw [if_pos h, if_pos (decide_eq_true h), List.length_cons]
      omega
    · rw [if_neg h, if_neg (by simp [h])]
      omega

/-- C9 (heatmap count conservation): the counts of the generated heatmap sum
to the number of sessions whose date lies on one of the 365 window days,
today - 364 through today; each session contributes exactly once, to the
entry of its own date. -/
theorem c9_heatmap_count_conservation (sessions : List ReadingSession) (today : Int) :
    ((generateHeatmapData sessions today).map (fun e => e.count)).sum =
      (sessions.filter (fun s => decide (today - 364 ≤ s.date ∧ s.date ≤ today))).length := by
  have hmap : ((generateHeatmapData sessions today).map (fun e => e.count)) =
      (List.range 365).map (fun (j : Nat) => sessionsOnDate sessions (today - 364 + (j : Int))) := by
    unfold generateHeatmapData
    rw [List.map_map]
    rfl
  rw [hmap, range_count_sum (today - 364) 365 sessions]
  congr 1
  refine List.filter_congr ?_
  intro s _
  refine decide_eq_decide.mpr ?_
  push_cast
  omega

/-- Lookup by id only returns badges carrying the looked-up id. -/
theorem lookupBadge_id (prev : List Badge) (id : String) (e : Badge)
    (h : lookupBadge prev id = some e) : e.id = id := by
  unfold lookupBadge at h
  have hmem : e ∈ prev.filter (fun b => decide (b.id = id)) :=
    List.mem_of_mem_getLast? (Option.mem_def.mpr h)
  exact of_decide_eq_true (List.mem_filter.mp hmem).2

/-- Every position of the evaluated badge list is the per-definition result
of its catalog entry. -/
theorem evaluateBadges_fst_getElem (stats : UserStats) (catalog : List BadgeDef)
    (prev : List Badge) (now : Int) (i : Nat) (d : BadgeDef) (hd : catalog[i]? = some d) :
    (evaluateBadges stats catalog prev now).1[i]? =
      some (evalBadgeDef stats prev now d).1 := by
  unfold evaluateBadges
  rw [List.getElem?_map, List.getElem?_map, hd]
  rfl

/-- An already unlocked previous badge is returned unchanged. -/
theorem evalBadgeDef_of_unlocked (stats : UserStats) (prev : List Badge) (now : Int)
    (d : BadgeDef) (e : Badge) (he : lookupBadge prev d.id = some e)
    (hu : e.unlocked = true) : evalBadgeDef stats prev now d = (e, false) := by
  simp [evalBadgeDef, he, hu]

/-- An eligible definition without an unlocked previous badge produces the
newly unlocked badge stamped with now. -/
theorem evalBadgeDef_newly (stats : UserStats) (prev : List Badge) (now : Int)
    (d : BadgeDef) (hel : isUnlockedNow stats d = true)
    (hnot : ∀ e, lookupBadge prev d.id = some e → e.unlocked = false) :
    evalBadgeDef stats prev now d =
      ({ id := d.id, name := d.name, description := d.description, icon := d.icon,
         type := d.type, requirement := d.requirement,
         unlocked := true, unlockedAt := some now }, true) := by
  rcases hl : lookupBadge prev d.id with _ | e
  · simp [evalBadgeDef, hl, hel]
  · simp [evalBadgeDef, hl, hel, hnot e hl]

/-- An ineligible definition keeps the previous badge or yields a locked
fresh one. -/
theorem evalBadgeDef_not_eligible (stats : UserStats) (prev : List Badge) (now : Int)
    (d : BadgeDef) (hel : isUnlockedNow stats d = false) :
    evalBadgeDef stats prev now d =
      (match lookupBadge prev d.id with
       | some e => (e, false)
       | none =>
         ({ id := d.id, name := d.name, description := d.description, icon := d.icon,
            type := d.type, requirement := d.requirement,
            unlocked := false, unlockedAt := none }, false)) := by
  rcases hl : lookupBadge prev d.id with _ | e
  · simp [evalBadgeDef, hl, hel]
  · simp [evalBadgeDef, hl, hel]

/-- A newly-unlocked flag only arises together with the freshly stamped
badge. -/
theorem evalBadgeDef_snd_true (stats : UserStats) (prev : List Badge) (now : Int)
    (d : BadgeDef) (h : (evalBadgeDef stats prev now d).2 = true) :
    evalBadgeDef stats prev now d =
      ({ id := d.id, name := d.name, description := d.description, icon := d.icon,
         type := d.type, requirement := d.requirement,
         unlocked := true, unlockedAt := some now }, true) := by
  unfold evalBadgeDef at h ⊢
  dsimp only at h ⊢
  split at h
  · rename_i hcond
    rw [if_pos hcond]
  · split at h <;> simp at h

/-- The evaluated badge always carries its definition id. -/
theorem evalBadgeDef_fst_id (stats : UserStats) (prev : List Badge) (now : Int)
    (d : BadgeDef) : (evalBadgeDef stats prev now d).1.id = d.id := by
  unfold evalBadgeDef
  dsimp only
  split
  · rfl
  · rcases hl : lookupBadge prev d.id with _ | e
    · rfl
    · exact lookupBadge_id prev d.id e hl

/-- collectNew only ever appends to its accumulator. -/
theorem collectNew_acc_mem : ∀ (rest : List (Badge × Bool)) (acc : List Badge) (x : Badge),
    x ∈ acc → x ∈ collectNew rest acc := by
  intro rest
  induction rest with
  | nil => exact fun acc x hx => hx
  | cons p rest ih =>
    intro acc x hx
    rcases p with ⟨b, isNew⟩
    simp only [collectNew]
    split
    · exact ih _ _ (List.mem_append.mpr (Or.inl hx))
    · exact ih _ _ hx

/-- A pair flagged newly unlocked whose badge id is unique among the flagged
results ends up in the collected newBadges list. -/
theorem collectNew_mem_of_newly :
    ∀ (rest : List (Badge × Bool)) (acc : List Badge) (b : Badge),
    (b, true) ∈ rest →
    (∀ x ∈ acc, x.id ≠ b.id) →
    (∀ b' f, (b', f) ∈ rest → f = true → b'.id = b.id → b' = b) →
    b ∈ collectNew rest acc := by
  intro rest
  induction rest with
  | nil =>
    intro acc b hmem _ _
    exact absurd hmem (List.not_mem_nil _)
  | cons p rest ih =>
    intro acc b hmem hacc huniq
    rcases p with ⟨b0, f0⟩
    by_cases hb : b0 = b ∧ f0 = true
    · obtain ⟨rfl, rfl⟩ := hb
      have hall : acc.all (fun x => decide (x.id ≠ b0.id)) = true :=
        List.all_eq_true.mpr (fun x hx => decide_eq_true (hacc x hx))
      simp only [collectNew]
      rw [if_pos (by rw [hall]; rfl)]
      exact collectNew_acc_mem _ _ _ (List.mem_append.mpr (Or.inr (List.mem_singleton.mpr rfl)))
    · have hmem' : (b, true) ∈ rest := by
        rcases List.mem_cons.mp hmem with h | h
        · injection h with h1 h2
          exact absurd ⟨h1.symm, h2.symm⟩ hb
        · exact h
      have huniq' : ∀ b' f, (b', f) ∈ rest → f = true → b'.id = b.id → b' = b :=
        fun b' f hb' hf hid => huniq b' f (List.mem_cons_of_mem _ hb') hf hid
      simp only [collectNew]
      split
      · rename_i hcond
        refine ih _ _ hmem' ?_ huniq'
        intro x hx
        rcases List.mem_append.mp hx with h | h
        · exact hacc x h
        · rw [List.mem_singleton.mp h]
          intro hid
          have hf0 : f0 = true := ((Bool.and_eq_true _ _).mp hcond).1
          exact hb ⟨huniq b0 f0 (List.mem_cons_self _ _) hf0 hid, hf0⟩
      · exact ih _ _ hmem' hacc huniq'

/-- C3 (badge monotonicity): a badge unlocked in the previous state is
returned unchanged by re-evaluation, whatever the current statistics, so it
stays unlocked with its original unlockedAt; unlockedAt is stamped with now
exactly at the first transition to unlocked, whether a locked previous
state exists or none does. -/
theorem c3_badge_monotonicity (stats : UserStats) (catalog : List BadgeDef)
    (prev : List Badge) (now : Int) (i : Nat) (d : BadgeDef) (hd : catalog[i]? = some d) :
    (∀ e, lookupBadge prev d.id = some e → e.unlocked = true →
      (evaluateBadges stats catalog prev now).1[i]? = some e) ∧
    (∀ e, lookupBadge prev d.id = some e → e.unlocked = false →
      isUnlockedNow stats d = true →
      (evaluateBadges stats catalog prev now).1[i]? = some
        { id := d.id, name := d.name, description := d.description, icon := d.icon,
          type := d.type, requirement := d.requirement,
          unlocked := true, unlockedAt := some now }) ∧
    (lookupBadge prev d.id = none → isUnlockedNow stats d = true →
      (evaluateBadges stats catalog prev now).1[i]? = some
        { id := d.id, name := d.name, description := d.description, icon := d.icon,
          type := d.type, requirement := d.requirement,
          unlocked := true, unlockedAt := some now }) := by
  refine ⟨?_, ?_, ?_⟩
  · intro e he hu
    rw [evaluateBadges_fst_getElem stats catalog prev now i d hd,
      evalBadgeDef_of_unlocked stats prev now d e he hu]
  · intro e he hu hel
    have hnot : ∀ e', lookupBadge prev d.id = some e' → e'.unlocked = false := by
      intro e' he'
      rw [he] at he'
      injection he' with h
      rw [← h]
      exact hu
    rw [evaluateBadges_fst_getElem stats catalog prev now i d hd,
      evalBadgeDef_newly stats prev now d hel hnot]
  · intro he hel
    have hnot : ∀ e', lookupBadge prev d.id = some e' → e'.unlocked = false := by
      intro e' he'
      rw [he] at he'
      exact Option.noConfusion he'
    rw [evaluateBadges_fst_getElem stats catalog prev now i d hd,
      evalBadgeDef_newly stats prev now d hel hnot]

/-- Catalog head definition, used by concrete instances. -/
def streak3Def : BadgeDef :=
  { id := "streak-3", name := "Getting Started", description := "3-day reading streak",
    icon := "flame", type := BadgeType.streak, requirement := 3 }

/-- Previously unlocked streak badge with an old timestamp. -/
def unlockedStreak3 : Badge :=
  { id := "streak-3", name := "Getting Started", description := "3-day reading streak",
    icon := "flame", type := BadgeType.streak, requirement := 3,
    unlocked := true, unlockedAt := some 111 }

/-- Witness for C3: after the streak regressed to zero, re-evaluation keeps
the badge unlocked with its original timestamp. -/
theorem c3_badge_monotonicity_witness :
    (evaluateBadges zeroStats BADGE_DEFINITIONS [unlockedStreak3] 999).1[0]? =
      some unlockedStreak3 :=
  (c3_badge_monotonicity zeroStats BADGE_DEFINITIONS [unlockedStreak3] 999 0 streak3Def
    rfl).1 unlockedStreak3 rfl rfl

/-- C7 (eligibility mapping): for a catalog definition not already unlocked
in the previous state, the evaluated badge is unlocked exactly when its
statistic meets the requirement, where the streak type reads
stats.currentStreak, the time type reads stats.minutesThisWeek and the
content type reads stats.totalSessions; a newly eligible badge records
unlockedAt = now and is reported among the newly unlocked badges. -/
theorem c7_eligibility_mapping (stats : UserStats) (catalog : List BadgeDef)
    (prev : List Badge) (now : Int) (i : Nat) (d : BadgeDef) (hd : catalog[i]? = some d)
    (hnot : ∀ e, lookupBadge prev d.id = some e → e.unlocked = false) :
    ∃ r : Badge, (evaluateBadges stats catalog prev now).1[i]? = some r ∧
      r.unlocked = isUnlockedNow stats d ∧
      (d.type = BadgeType.streak →
        (isUnlockedNow stats d = true ↔ d.requirement ≤ (stats.currentStreak : Int))) ∧
      (d.type = BadgeType.time →
        (isUnlockedNow stats d = true ↔ d.requirement ≤ stats.minutesThisWeek)) ∧
      (d.type = BadgeType.content →
        (isUnlockedNow stats d = true ↔ d.requirement ≤ (stats.totalSessions : Int))) ∧
      (isUnlockedNow stats d = true →
        r.unlockedAt = some now ∧
        ((catalog.map (fun x => x.id)).Nodup →
          r ∈ (evaluateBadges stats catalog prev now).2)) := by
  refine ⟨(evalBadgeDef stats prev now d).1,
    evaluateBadges_fst_getElem stats catalog prev now i d hd, ?_, ?_, ?_, ?_, ?_⟩
  · cases hel : isUnlockedNow stats d with
    | true => rw [evalBadgeDef_newly stats prev now d hel hnot]
    | false =>
      rw [evalBadgeDef_not_eligible stats prev now d hel]
      rcases hl : lookupBadge prev d.id with _ | e
      · rfl
      · exact hnot e hl
  · intro ht
    simp [isUnlockedNow, ht]
  · intro ht
    simp [isUnlockedNow, ht]
  · intro ht
    simp [isUnlockedNow, ht]
  · intro hel
    have heq := evalBadgeDef_newly stats prev now d hel hnot
    constructor
    · rw [heq]
    · intro hnodup
      show (evalBadgeDef stats prev now d).1 ∈
        collectNew (catalog.map (evalBadgeDef stats prev now)) []
      refine collectNew_mem_of_newly _ _ _ ?_ ?_ ?_
      · have hpair : ((evalBadgeDef stats prev now d).1, true) =
            evalBadgeDef stats prev now d := by rw [heq]
        rw [hpair]
        exact List.mem_map.mpr ⟨d, List.getElem?_mem hd, rfl⟩
      · exact fun x hx => absurd hx (List.not_mem_nil x)
      · intro b' f hb' hf hid
        obtain ⟨d', hd', hfd'⟩ := List.mem_map.mp hb'
        have hsnd : (evalBadgeDef stats prev now d').2 = true := by
          rw [hfd']
          exact hf
        have heq' := evalBadgeDef_snd_true stats prev now d' hsnd
        have h1 : b' = (evalBadgeDef stats prev now d').1 := by rw [hfd']
        have hid' : d'.id = d.id := by
          have hb'id : b'.id = d'.id := by
            rw [h1]
            exact evalBadgeDef_fst_id stats prev now d'
          have hrid : (evalBadgeDef stats prev now d).1.id = d.id :=
            evalBadgeDef_fst_id stats prev now d
          rw [hb'id, hrid] at hid
          exact hid
        have hdd : d' = d :=
          List.inj_on_of_nodup_map hnodup hd' (List.getElem?_mem hd) hid'
        rw [h1, hdd]

/-- Statistics of a three-day streak, used by the C7 witness. -/
def statsStreak3 : UserStats :=
  { totalSessions := 3, totalMinutes := 90, currentStreak := 3, longestStreak := 3
    averageSessionDuration := 30, sessionsThisWeek := 3, sessionsThisMonth := 3
    minutesThisWeek := 90, minutesThisMonth := 90 }

/-- Witness for C7: with a fresh three-day streak, the streak-3 definition
at position 0 of the catalog and no previous state satisfy the eligibility
mapping. -/
theorem c7_eligibility_mapping_witness :
    ∃ r : Badge, (evaluateBadges statsStreak3 BADGE_DEFINITIONS [] 999).1[0]? = some r ∧
      r.unlocked = isUnlockedNow statsStreak3 streak3Def ∧
      (streak3Def.type = BadgeType.streak →
        (isUnlockedNow statsStreak3 streak3Def = true ↔
          streak3Def.requirement ≤ (statsStreak3.currentStreak : Int))) ∧
      (streak3Def.type = BadgeType.time →
        (isUnlockedNow statsStreak3 streak3Def = true ↔
          streak3Def.requirement ≤ statsStreak3.minutesThisWeek)) ∧
      (streak3Def.type = BadgeType.content →
        (isUnlockedNow statsStreak3 streak3Def = true ↔
          streak3Def.requirement ≤ (statsStreak3.totalSessions : Int))) ∧
      (isUnlockedNow statsStreak3 streak3Def = true →
        r.unlockedAt = some 999 ∧
        ((BADGE_DEFINITIONS.map (fun x => x.id)).Nodup →
          r ∈ (evaluateBadges statsStreak3 BADGE_DEFINITIONS [] 999).2)) :=
  c7_eligibility_mapping statsStreak3 BADGE_DEFINITIONS [] 999 0 streak3Def rfl
    (fun _ he => Option.noConfusion he)

/-- uniqueDates holds no duplicate date. -/
theorem uniqueDates_nodup (sessions : List ReadingSession) : (uniqueDates sessions).Nodup :=
  ((List.perm_insertionSort _ _).nodup_iff).mpr (List.nodup_dedup _)

/-- uniqueDates is strictly ascending. -/
theorem uniqueDates_sorted_lt (sessions : List ReadingSession) :
    (uniqueDates sessions).Pairwise (· < ·) := by
  have hs : (uniqueDates sessions).Pairwise (· ≤ ·) := List.sorted_insertionSort _ _
  have hn : (uniqueDates sessions).Nodup := uniqueDates_nodup sessions
  exact (hs.and hn).imp (fun hab => lt_of_le_of_ne hab.1 hab.2)

/-- The longest-streak loop result dominates both accumulators. -/
theorem longestLoop_ge : ∀ (rest : List Int) (prev : Int) (temp longest : Nat),
    temp ≤ longestLoop rest prev temp longest ∧
      longest ≤ longestLoop rest prev temp longest := by
  intro rest
  induction rest with
  | nil =>
    intro prev temp longest
    exact ⟨Nat.le_max_right _ _, Nat.le_max_left _ _⟩
  | cons r rest ih =>
    intro prev temp longest
    simp only [longestLoop]
    split
    · exact ⟨Nat.le_trans (Nat.le_succ temp) (ih r (temp + 1) longest).1,
        (ih r (temp + 1) longest).2⟩
    · exact ⟨Nat.le_trans (Nat.le_max_right longest temp) (ih r 1 (max longest temp)).2,
        Nat.le_trans (Nat.le_max_left longest temp) (ih r 1 (max longest temp)).2⟩

/-- Completeness of the longest-streak loop: any consecutive run inside the
remaining sorted dates forces the result at least to the run length (runs
starting at the carried previous date extend the carried tempStreak). -/
theorem longestLoop_complete :
    ∀ (rest : List Int) (prev : Int) (temp longest : Nat) (d : Int) (k : Nat),
    (prev :: rest).Pairwise (· < ·) → 1 ≤ temp → 1 ≤ k →
    ConsecRun (prev :: rest) d k →
    (d = prev → temp + k - 1 ≤ longestLoop rest prev temp longest) ∧
    (d ≠ prev → k ≤ longestLoop rest prev temp longest) := by
  intro rest
  induction rest with
  | nil =>
    intro prev temp longest d k _ htemp hk hrun
    have hd : d = prev := by
      have h0 := hrun 0 (by omega)
      simp only [List.mem_singleton] at h0
      push_cast at h0
      omega
    constructor
    · intro _
      have hk1 : k = 1 := by
        by_contra hk1
        have h1 := hrun 1 (by omega)
        simp only [List.mem_singleton] at h1
        push_cast at h1
        omega
      subst hk1
      simp only [longestLoop]
      omega
    · intro hne
      exact absurd hd hne
  | cons r rest ih =>
    intro prev temp longest d k hsort htemp hk hrun
    obtain ⟨hprev_lt, hsort'⟩ := List.pairwise_cons.mp hsort
    constructor
    · intro hdp
      subst hdp
      rcases Nat.lt_or_ge k 2 with hk2 | hk2
      · have hk1 : k = 1 := by omega
        subst hk1
        have := (longestLoop_ge (r :: rest) d temp longest).1
        omega
      · have h1 : d + (1 : Int) ∈ d :: r :: rest := hrun 1 (by omega)
        have h2 : d + (1 : Int) ∈ r :: rest := by
          rcases List.mem_cons.mp h1 with h | h
          · exact absurd h (by omega)
          · exact h
        have hr : r = d + 1 := by
          rcases List.mem_cons.mp h2 with h | h
          · omega
          · have hlt := (List.pairwise_cons.mp hsort').1 _ h
            have hpr : d < r := hprev_lt r (List.mem_cons_self _ _)
            omega
        simp only [longestLoop]
        rw [if_pos (by omega : r - d = 1)]
        have hrun' : ConsecRun (r :: rest) r (k - 1) := by
          intro i hi
          have hm := hrun (i + 1) (by omega)
          have hx : r + (i : Int) = d + ((i + 1 : Nat) : Int) := by push_cast; omega
          rw [hx]
          rcases List.mem_cons.mp hm with h | h
          · exfalso
            push_cast at h
            omega
          · exact h
        have := (ih r (temp + 1) longest r (k - 1) hsort' (by omega) (by omega) hrun').1 rfl
        omega
    · intro hdp
      have hd_mem : d ∈ prev :: r :: rest := by
        have h0 := hrun 0 (by omega)
        simpa using h0
      have hd_in : d ∈ r :: rest := by
        rcases List.mem_cons.mp hd_mem with h | h
        · exact absurd h hdp
        · exact h
      have hdgt : prev < d := hprev_lt d hd_in
      have hrun' : ConsecRun (r :: rest) d k := by
        intro i hi
        have hm := hrun i hi
        rcases List.mem_cons.mp hm with h | h
        · exfalso
          omega
        · exact h
      simp only [longestLoop]
      split
      · rcases eq_or_ne d r with hdr | hdr
        · have := (ih r (temp + 1) longest d k hsort' (by omega) hk hrun').1 hdr
          omega
        · exact (ih r (temp + 1) longest d k hsort' (by omega) hk hrun').2 hdr
      · rcases eq_or_ne d r with hdr | hdr
        · have := (ih r 1 (max longest temp) d k hsort' (by omega) hk hrun').1 hdr
          omega
        · exact (ih r 1 (max longest temp) d k hsort' (by omega) hk hrun').2 hdr

/-- Soundness of the longest-streak loop: its result is always realized by
some consecutive run inside the ambient date list. -/
theorem longestLoop_sound :
    ∀ (rest : List Int) (prev : Int) (temp longest : Nat) (W : List Int),
    ConsecRun W (prev - (temp : Int) + 1) temp →
    (∀ x ∈ rest, x ∈ W) →
    (∃ d0, ConsecRun W d0 longest) →
    ∃ d, ConsecRun W d (longestLoop rest prev temp longest) := by
  intro rest
  induction rest with
  | nil =>
    intro prev temp longest W hrun _ hlong
    simp only [longestLoop]
    rcases Nat.le_total longest temp with h | h
    · rw [Nat.max_eq_right h]
      exact ⟨prev - (temp : Int) + 1, hrun⟩
    · rw [Nat.max_eq_left h]
      exact hlong
  | cons r rest ih =>
    intro prev temp longest W hrun hrest hlong
    simp only [longestLoop]
    split
    · rename_i hcond
      refine ih r (temp + 1) longest W ?_
        (fun x hx => hrest x (List.mem_cons_of_mem _ hx)) hlong
      intro i hi
      rcases Nat.lt_or_ge i temp with hit | hit
      · have hm := hrun i hit
        have hx : r - ((temp + 1 : Nat) : Int) + 1 + (i : Int)
            = prev - (temp : Int) + 1 + (i : Int) := by push_cast; omega
        rw [hx]
        exact hm
      · have hx : r - ((temp + 1 : Nat) : Int) + 1 + (i : Int) = r := by push_cast; omega
        rw [hx]
        exact hrest r (List.mem_cons_self _ _)
    · refine ih r 1 (max longest temp) W ?_
        (fun x hx => hrest x (List.mem_cons_of_mem _ hx)) ?_
      · intro i hi
        have hx : r - ((1 : Nat) : Int) + 1 + (i : Int) = r := by push_cast; omega
        rw [hx]
        exact hrest r (List.mem_cons_self _ _)
      · rcases Nat.le_total longest temp with h | h
        · rw [Nat.max_eq_right h]
          exact ⟨prev - (temp : Int) + 1, hrun⟩
        · rw [Nat.max_eq_left h]
          exact hlong

/-- Every member bounds the fold of max from below. -/
theorem le_foldr_max (l : List Nat) (a : Nat) (ha : a ∈ l) : a ≤ l.foldr max 0 := by
  induction l with
  | nil => cases ha
  | cons b t ih =>
    simp only [List.foldr_cons]
    rcases List.mem_cons.mp ha with h | h
    · rw [h]
      exact Nat.le_max_left _ _
    · exact Nat.le_trans (ih h) (Nat.le_max_right _ _)

/-- An upper bound of all members bounds the fold of max. -/
theorem foldr_max_le (l : List Nat) (m : Nat) (h0 : ∀ a ∈ l, a ≤ m) : l.foldr max 0 ≤ m := by
  induction l with
  | nil => exact Nat.zero_le m
  | cons b t ih =>
    simp only [List.foldr_cons]
    exact Nat.max_le.mpr ⟨h0 b (List.mem_cons_self _ _),
      ih (fun a ha => h0 a (List.mem_cons_of_mem _ ha))⟩

/-- A duplicate-free list contained in another is no longer than it. -/
theorem nodup_subset_length {A L : List Int} (hA : A.Nodup) (hsub : A ⊆ L) :
    A.length ≤ L.length := by
  classical
  calc A.length = A.toFinset.card := (List.toFinset_card_of_nodup hA).symm
    _ ≤ L.toFinset.card := Finset.card_le_card (fun x hx => by
        simp only [List.mem_toFinset] at hx ⊢
        exact hsub hx)
    _ ≤ L.length := L.toFinset_card_le

/-- The boolean run test agrees with the run proposition. -/
theorem hasRun_iff (dates : List Int) (d : Int) (k : Nat) :
    hasRun dates d k = true ↔ ConsecRun dates d k := by
  unfold hasRun ConsecRun
  rw [List.all_eq_true]
  constructor
  · intro h i hi
    exact of_decide_eq_true (h i (List.mem_range.mpr hi))
  · intro h i hi
    exact decide_eq_true (h i (List.mem_range.mp hi))

/-- Bridge: on a strictly ascending duplicate-free date list, the code loop
computes exactly the greatest length of a consecutive-day run contained in
the list. -/
theorem longestStreakOf_eq_maxRunLen (L : List Int)
    (hsort : L.Pairwise (· < ·)) (hnodup : L.Nodup) :
    longestStreakOf L = maxRunLen L := by
  rcases L with _ | ⟨d, rest⟩
  · rfl
  · have hsound : ∃ d0, ConsecRun (d :: rest) d0 (longestLoop rest d 1 0) := by
      refine longestLoop_sound rest d 1 0 (d :: rest) ?_
        (fun x hx => List.mem_cons_of_mem _ hx) ⟨0, ?_⟩
      · intro i hi
        have hx : d - ((1 : Nat) : Int) + 1 + (i : Int) = d := by push_cast; omega
        rw [hx]
        exact List.mem_cons_self _ _
      · intro i hi
        exact absurd hi (by omega)
    have hm1 : 1 ≤ longestLoop rest d 1 0 := (longestLoop_ge rest d 1 0).1
    have hcomplete : ∀ (d0 : Int) (k : Nat), 1 ≤ k → ConsecRun (d :: rest) d0 k →
        k ≤ longestLoop rest d 1 0 := by
      intro d0 k hk hrun
      rcases eq_or_ne d0 d with h | h
      · have := (longestLoop_complete rest d 1 0 d0 k hsort (by omega) hk hrun).1 h
        omega
      · exact (longestLoop_complete rest d 1 0 d0 k hsort (by omega) hk hrun).2 h
    obtain ⟨d0, hrun0⟩ := hsound
    have hd0 : d0 ∈ d :: rest := by
      have h0 := hrun0 0 (by omega)
      simpa using h0
    have hmlen : longestLoop rest d 1 0 ≤ (d :: rest).length := by
      have hApN : ((List.range (longestLoop rest d 1 0)).map
          (fun (i : Nat) => d0 + (i : Int))).Nodup := by
        refine List.Nodup.map ?_ (List.nodup_range _)
        intro a b hab
        dsimp only at hab
        omega
      have hApSub : ((List.range (longestLoop rest d 1 0)).map (fun (i : Nat) => d0 + (i : Int)))
          ⊆ (d :: rest) := by
        intro x hx
        obtain ⟨i, hi, rfl⟩ := List.mem_map.mp hx
        exact hrun0 i (List.mem_range.mp hi)
      have hlen := nodup_subset_length hApN hApSub
      simpa using hlen
    have hmem : longestLoop rest d 1 0 ∈ (List.range ((d :: rest).length + 1)).filter
        (fun k => (d :: rest).any (fun x => hasRun (d :: rest) x k)) := by
      rw [List.mem_filter]
      refine ⟨List.mem_range.mpr (by omega), ?_⟩
      rw [List.any_eq_true]
      exact ⟨d0, hd0, (hasRun_iff _ _ _).mpr hrun0⟩
    have hall : ∀ k ∈ (List.range ((d :: rest).length + 1)).filter
        (fun k => (d :: rest).any (fun x => hasRun (d :: rest) x k)),
        k ≤ longestLoop rest d 1 0 := by
      intro k hkmem
      have h2 := (List.mem_filter.mp hkmem).2
      rw [List.any_eq_true] at h2
      obtain ⟨x, hx, hrx⟩ := h2
      rcases Nat.eq_zero_or_pos k with h0 | hpos
      · omega
      · exact hcomplete x k hpos ((hasRun_iff _ _ _).mp hrx)
    show longestLoop rest d 1 0 = maxRunLen (d :: rest)
    unfold maxRunLen
    exact Nat.le_antisymm (le_foldr_max _ _ hmem) (foldr_max_le _ _ hall)

/-- C6 (longest streak): for every session collection, the code longest
streak equals the greatest length of a consecutive-day run inside the
distinct session dates, independent of the current streak; in particular a
5-day run, a gap and a 2-day run ending today yield longest 5 with current
streak 2. -/
theorem c6_longest_streak (sessions : List ReadingSession) (today : Int) :
    (calculateStreaks sessions today).2 = maxRunLen (uniqueDates sessions) ∧
    calculateStreaks
      [mkSession "a" (-12) 30, mkSession "b" (-11) 30, mkSession "c" (-10) 30,
       mkSession "d" (-9) 30, mkSession "e" (-8) 30, mkSession "f" (-1) 30,
       mkSession "g" 0 30] 0 = (2, 5) := by
  constructor
  · by_cases h : sessions.length = 0
    · obtain rfl : sessions = [] := List.length_eq_zero.mp h
      rfl
    · unfold calculateStreaks
      rw [if_neg h]
      dsimp only
      exact longestStreakOf_eq_maxRunLen (uniqueDates sessions)
        (uniqueDates_sorted_lt sessions) (uniqueDates_nodup sessions)
  · decide
